import Mathlib

/-!
# Verification of the KDE traversal rules (`mlpack/methods/kde/kde_rules.hpp`)

Shallow embedding of the `KDERules` class: the dual-tree / single-tree
traversal rules for kernel density estimation.  The header declares the
class interface and inlines only the two `GetKernelBandwidth` overloads
(lines 105-117); every other method body lives in `kde_rules_impl.hpp`,
which is included at line 172 but is not among the sources.  Those bodies
are therefore modelled from the specification, as recorded in the doc
comment of each such definition.

Real arithmetic is embedded as exact rational arithmetic (`ℚ`).  The point
type `α` and the bounding-volume type `β` are parameters, matching the
spec, which places the tree representation and the metric/kernel adapters
out of scope: the rules only see them through the distance-bound and
kernel-evaluation functions recorded in the configuration.
-/

namespace KDE

/-- Models `KernelType` for the bandwidth accessor: `evaluate` is the
kernel's `Evaluate` member, and `bandwidth` is `some b` exactly when the
kernel type exposes a `double Bandwidth() const` member returning `b`
(the compile-time `HAS_MEM_FUNC(Bandwidth, HasBandwidth)` capability of
`kde_rules.hpp` line 30, modelled as an `Option`). -/
structure KernelObject where
  evaluate : ℚ → ℚ
  bandwidth : Option ℚ

/-- The error class thrown by the rules: `std::invalid_argument`. -/
inductive KDEError where
  | invalidArgument : String → KDEError
deriving DecidableEq

/-- From the source, `kde_rules.hpp` lines 105-117: the SFINAE overload pair
`GetKernelBandwidth`.  The enabled-when-`HasBandwidth` overload returns
`kernel.Bandwidth()`; the other overload throws
`std::invalid_argument("cannot get bandwidth from kernel")`. -/
def GetKernelBandwidth (kernel : KernelObject) : Except KDEError ℚ :=
  match kernel.bandwidth with
  | some b => Except.ok b
  | none => Except.error (KDEError.invalidArgument "cannot get bandwidth from kernel")

/-- The configuration of one estimation run, from the `KDERules` constructor
arguments (`kde_rules.hpp` lines 51-61) together with the metric/tree
adapter functions the spec assumes (distance bounds between a query point
or bounding volume and a reference bounding volume), and the Monte Carlo
random source.  `mcDraw round slot` is the raw random draw used for sample
`slot` of escalation round `round`; the spec leaves the random source
external, so it is a parameter. -/
structure KDEConfig (α β : Type) where
  referenceSet : List α
  querySet : List α
  relError : ℚ
  absError : ℚ
  MCProb : ℚ
  initialSampleSize : ℕ
  metric : α → α → ℚ
  kernel : ℚ → ℚ
  monteCarlo : Bool
  sameSet : Bool
  minDistPB : α → β → ℚ
  maxDistPB : α → β → ℚ
  minDistBB : β → β → ℚ
  maxDistBB : β → β → ℚ
  mcDraw : ℕ → ℕ → ℕ

/-- A tree node as the rules see it (spec design note: the evaluator only
requires a node abstraction exposing a point range and distance-bound
queries): the indices of the (descendant) points it contains, and its
bounding volume. -/
structure KDENode (β : Type) where
  points : List ℕ
  bound : β

/-- The mutable state of a `KDERules` object: the caller-owned density
accumulator (`densities`), the duplicate-suppression memo slot
(`lastPair`, modelling the `lastQueryIndex`/`lastReferenceIndex` members,
`none` meaning the reset slot of a freshly constructed rules object), the
previously computed base-case value (`lastBaseCase`, modelling the
traversal-info last base case used to answer a duplicate invocation), and
the diagnostic counters `baseCases` and `scores`. -/
structure KDEState where
  densities : List ℚ
  lastPair : Option (ℕ × ℕ)
  lastBaseCase : ℚ
  baseCases : ℕ
  scores : ℕ

/-- Modelled from the spec: the `KDERules` constructor (body in the missing
`kde_rules_impl.hpp`).  It stores the configuration and resets the memo
slot and the counters at the start of the estimation run; the accumulator
is caller-owned and passed in. -/
def KDERules.init (densities : List ℚ) : KDEState :=
  { densities := densities
    lastPair := none
    lastBaseCase := 0
    baseCases := 0
    scores := 0 }

/-- Modelled from the spec: the private `EvaluateKernel` helper (declared at
`kde_rules.hpp` lines 98-99, body in the missing `kde_rules_impl.hpp`):
`kernel(metric.Evaluate(query_i, reference_j))`. -/
def EvaluateKernel {α β : Type} [Inhabited α] (cfg : KDEConfig α β)
    (queryIndex referenceIndex : ℕ) : ℚ :=
  cfg.kernel (cfg.metric (cfg.querySet.getD queryIndex default)
    (cfg.referenceSet.getD referenceIndex default))

/-- Modelled from the spec: `BaseCase` (declared at `kde_rules.hpp` line 64,
body in the missing `kde_rules_impl.hpp`).  If the pair equals the last
recorded pair it returns the previously computed value without
re-accumulating; otherwise it computes the kernel value of the pair, adds
it to the query's accumulator slot unless `sameSet` and the indices
coincide (self-exclusion: the contribution is zero), records the pair and
the value in the memo slot, increments the base-case counter, and returns
the computed kernel value. -/
def BaseCase {α β : Type} [Inhabited α] (cfg : KDEConfig α β) (st : KDEState)
    (queryIndex referenceIndex : ℕ) : KDEState × ℚ :=
  if st.lastPair = some (queryIndex, referenceIndex) then
    (st, st.lastBaseCase)
  else
    let kernelValue := EvaluateKernel cfg queryIndex referenceIndex
    let newDensities :=
      if cfg.sameSet ∧ queryIndex = referenceIndex then st.densities
      else st.densities.set queryIndex
        (st.densities.getD queryIndex 0 + kernelValue)
    ({ st with
        densities := newDensities
        lastPair := some (queryIndex, referenceIndex)
        lastBaseCase := kernelValue
        baseCases := st.baseCases + 1 }, kernelValue)

/-- The exact-pruning pass/fail test of spec step 4, shared by `Score` and
`Rescore`: the node-pair uncertainty (`gap`, the difference between the
upper and the lower bound on the subtree's total contribution) is within
the additively combined tolerances for the current partial estimate. -/
def exactPruneTest {α β : Type} (cfg : KDEConfig α β) (gap est : ℚ) : Prop :=
  gap ≤ cfg.relError * est + cfg.absError

instance {α β : Type} (cfg : KDEConfig α β) (gap est : ℚ) :
    Decidable (exactPruneTest cfg gap est) :=
  inferInstanceAs (Decidable (gap ≤ cfg.relError * est + cfg.absError))

/-- Spec step 2 (point-to-node form): distance bounds become kernel-value
bounds; the minimum distance gives the kernel upper bound (first
component), the maximum distance the kernel lower bound (second). -/
def kernelBoundsPB {α β : Type} (cfg : KDEConfig α β) (q : α) (b : β) : ℚ × ℚ :=
  (cfg.kernel (cfg.minDistPB q b), cfg.kernel (cfg.maxDistPB q b))

/-- Spec step 2 (node-to-node form): kernel-value bounds from the
node-to-node distance bounds. -/
def kernelBoundsBB {α β : Type} (cfg : KDEConfig α β) (qb b : β) : ℚ × ℚ :=
  (cfg.kernel (cfg.minDistBB qb b), cfg.kernel (cfg.maxDistBB qb b))

/-- Arithmetic mean of a list of sample values (`l.sum / l.length`). -/
def meanOf (vals : List ℚ) : ℚ := vals.sum / (vals.length : ℚ)

/-- Population variance of a list of sample values. -/
def varOf (vals : List ℚ) : ℚ :=
  ((vals.map (fun x => (x - meanOf vals) ^ 2)).sum) / (vals.length : ℚ)

/-- Modelled from the spec: the Monte Carlo confidence-interval width test
(spec step 5; the exact formula is declared an open choice by the spec's
design notes, which suggest a standard Chebyshev-style bound, adopted
here): the sample mean satisfies the relative-error tolerance with
probability at least `MCProb` when
`var / (m * (1 - MCProb)) ≤ (relError * mean)^2`, written below without
division. -/
def mcWidthOK (relError MCProb : ℚ) (vals : List ℚ) : Bool :=
  if varOf vals ≤ (vals.length : ℚ) * (1 - MCProb) * (relError * meanOf vals) ^ 2
  then true else false

/-- Modelled from the spec: the kernel values of the random sample drawn at
escalation round `round` (sample size `initialSampleSize * 2^round`,
doubling each round); each raw draw is mapped into the reference node's
contained point range. -/
def mcSampleVals {α β : Type} [Inhabited α] (cfg : KDEConfig α β) (q : α)
    (refNode : KDENode β) (round : ℕ) : List ℚ :=
  (List.range (cfg.initialSampleSize * 2 ^ round)).map (fun slot =>
    cfg.kernel (cfg.metric q (cfg.referenceSet.getD
      (refNode.points.getD (cfg.mcDraw round slot % refNode.points.length) 0)
      default)))

/-- Modelled from the spec: the escalation rounds available before the
doubling sample size exhausts the subtree's point count. -/
def mcRounds {α β : Type} (cfg : KDEConfig α β) (count : ℕ) : List ℕ :=
  (List.range (count + 1)).filter (fun k => cfg.initialSampleSize * 2 ^ k ≤ count)

/-- Modelled from the spec: the sequential Monte Carlo escalation of spec
step 5.  Successive rounds of doubling sample size are tried until the
confidence width test certifies one; the accepted approximation is the
sample-mean kernel contribution scaled by the subtree's point count.
`none` means the subtree was exhausted without satisfying the bound
(approximation shortfall: fall back to exact recursion). -/
def mcAttempt {α β : Type} [Inhabited α] (cfg : KDEConfig α β) (q : α)
    (refNode : KDENode β) : Option ℚ :=
  (List.find? (fun k => mcWidthOK cfg.relError cfg.MCProb (mcSampleVals cfg q refNode k))
      (mcRounds cfg refNode.points.length)).map
    (fun k => (refNode.points.length : ℚ) * meanOf (mcSampleVals cfg q refNode k))

/-- Modelled from the spec: the single-tree `Score` (declared at
`kde_rules.hpp` line 67, body in the missing `kde_rules_impl.hpp`).
Steps of spec 4.2: an empty reference node is an immediate prune with zero
contribution; otherwise distance bounds are converted to kernel bounds and
scaled by the node's point count; if the resulting uncertainty passes the
exact-pruning test against the query's current partial estimate, the
midpoint contribution is added to the accumulator and the pruned sentinel
(`none`) is returned; failing that, if Monte Carlo is enabled and the node
is larger than the initial sample size, a certified sample estimate may be
added instead; otherwise the bound gap is returned as the finite
recursion priority. -/
def scoreSingle {α β : Type} [Inhabited α] (cfg : KDEConfig α β) (st : KDEState)
    (queryIndex : ℕ) (refNode : KDENode β) : KDEState × Option ℚ :=
  let st1 : KDEState := { st with scores := st.scores + 1 }
  if refNode.points.isEmpty then (st1, none) else
  let q := cfg.querySet.getD queryIndex default
  let maxKernel := (kernelBoundsPB cfg q refNode.bound).1
  let minKernel := (kernelBoundsPB cfg q refNode.bound).2
  let n : ℚ := (refNode.points.length : ℚ)
  let gap := n * maxKernel - n * minKernel
  let est := st1.densities.getD queryIndex 0
  if exactPruneTest cfg gap est then
    ({ st1 with densities :=
        st1.densities.set queryIndex (est + n * ((maxKernel + minKernel) / 2)) }, none)
  else if cfg.monteCarlo && decide (cfg.initialSampleSize < refNode.points.length) then
    match mcAttempt cfg q refNode with
    | some contribution =>
        ({ st1 with densities :=
            st1.densities.set queryIndex (est + contribution) }, none)
    | none => (st1, some gap)
  else (st1, some gap)

/-- Minimum of a list of rationals (`0` for the empty list). -/
def listMin : List ℚ → ℚ
  | [] => 0
  | [x] => x
  | x :: y :: xs => min x (listMin (y :: xs))

/-- The worst-case partial estimate of a query node: the smallest current
accumulator value among its contained points (the tightest instance of the
relative-error threshold). -/
def worstEstimate (st : KDEState) (queryPoints : List ℕ) : ℚ :=
  listMin (queryPoints.map (fun p => st.densities.getD p 0))

/-- Adds `f p` to accumulator slot `p` for every point `p` of a node's
contained point range. -/
def addToAll (densities : List ℚ) (queryPoints : List ℕ) (f : ℕ → ℚ) : List ℚ :=
  queryPoints.foldl (fun d p => d.set p (d.getD p 0 + f p)) densities

/-- Modelled from the spec: the dual-tree `Score` (declared at
`kde_rules.hpp` line 75, body in the missing `kde_rules_impl.hpp`).  Same
steps as the single-tree form, with node-to-node distance bounds, the
query node's worst-case partial estimate in the exact-pruning test, and,
on a prune, the bounded contribution added to every contained query
point's accumulator slot.  The spec words the Monte Carlo path for a
single query's density, so it is applied per affected query point here:
the sampling branch is taken only when every affected query point's
sample certifies, and each point receives its own certified estimate. -/
def scoreDual {α β : Type} [Inhabited α] (cfg : KDEConfig α β) (st : KDEState)
    (queryNode refNode : KDENode β) : KDEState × Option ℚ :=
  let st1 : KDEState := { st with scores := st.scores + 1 }
  if refNode.points.isEmpty then (st1, none) else
  let maxKernel := (kernelBoundsBB cfg queryNode.bound refNode.bound).1
  let minKernel := (kernelBoundsBB cfg queryNode.bound refNode.bound).2
  let n : ℚ := (refNode.points.length : ℚ)
  let gap := n * maxKernel - n * minKernel
  let est := worstEstimate st queryNode.points
  if exactPruneTest cfg gap est then
    ({ st1 with densities :=
        (addToAll st1.densities queryNode.points
          (fun _ => n * ((maxKernel + minKernel) / 2))) }, none)
  else if cfg.monteCarlo && decide (cfg.initialSampleSize < refNode.points.length) then
    if queryNode.points.all (fun p =>
        (mcAttempt cfg (cfg.querySet.getD p default) refNode).isSome) then
      ({ st1 with densities :=
          (addToAll st1.densities queryNode.points
            (fun p => (mcAttempt cfg (cfg.querySet.getD p default) refNode).getD 0)) },
        none)
    else (st1, some gap)
  else (st1, some gap)

/-- Modelled from the spec: the single-tree `Rescore` (declared `const` at
`kde_rules.hpp` lines 70-72, body in the missing `kde_rules_impl.hpp`).
It re-evaluates the exact-pruning pass/fail test with the query's current
accumulator value, reusing the previously returned bound gap (`oldScore`)
instead of recomputing the geometric distance bounds, which are invariant
to accumulator changes; it returns the pruned sentinel if the test now
passes and otherwise the original `oldScore` unchanged.  The state is
returned unchanged (the method is `const`). -/
def rescoreSingle {α β : Type} (cfg : KDEConfig α β) (st : KDEState)
    (queryIndex : ℕ) (refNode : KDENode β) (oldScore : Option ℚ) :
    KDEState × Option ℚ :=
  (st, match oldScore with
    | none => none
    | some gap =>
        if exactPruneTest cfg gap (st.densities.getD queryIndex 0) then none
        else some gap)

/-- Modelled from the spec: the dual-tree `Rescore` (declared `const` at
`kde_rules.hpp` lines 78-80, body in the missing `kde_rules_impl.hpp`).
As the single-tree form, with the query node's worst-case current partial
estimate. -/
def rescoreDual {α β : Type} (cfg : KDEConfig α β) (st : KDEState)
    (queryNode refNode : KDENode β) (oldScore : Option ℚ) :
    KDEState × Option ℚ :=
  (st, match oldScore with
    | none => none
    | some gap =>
        if exactPruneTest cfg gap (worstEstimate st queryNode.points) then none
        else some gap)

/-- A reference tree, as the traversal driver walks it: every node carries
its bounding volume; leaves carry the contained reference point indices. -/
inductive RefTree (β : Type) where
  | leaf : β → List ℕ → RefTree β
  | node : β → RefTree β → RefTree β → RefTree β

/-- The (descendant) reference point indices contained in a subtree. -/
def RefTree.points {β : Type} : RefTree β → List ℕ
  | RefTree.leaf _ pts => pts
  | RefTree.node _ l r => RefTree.points l ++ RefTree.points r

/-- The node abstraction the rules see for a subtree. -/
def RefTree.asNode {β : Type} : RefTree β → KDENode β
  | RefTree.leaf b pts => { points := pts, bound := b }
  | RefTree.node b l r => { points := RefTree.points l ++ RefTree.points r, bound := b }

/-- Modelled from the spec: the leaf-level work of the external traversal
driver, which calls `BaseCase` directly on the leaf-contained point
pairs. -/
def baseCaseLoop {α β : Type} [Inhabited α] (cfg : KDEConfig α β) (st : KDEState)
    (queryIndex : ℕ) (pts : List ℕ) : KDEState :=
  pts.foldl (fun s j => (BaseCase cfg s queryIndex j).1) st

/-- Modelled from the spec: the generic single-tree depth-first traversal
driver (an external collaborator, spec section 2): it calls `Score` on the
query point against each visited reference node; the sentinel return
(`none`) means the contribution is already bounded into the estimate and
the subtree is pruned; a finite return makes the driver descend into the
children, or call `BaseCase` on the contained points at a leaf. -/
def singleTreeTraverse {α β : Type} [Inhabited α] (cfg : KDEConfig α β)
    (queryIndex : ℕ) (st : KDEState) : RefTree β → KDEState
  | RefTree.leaf b pts =>
      let r := scoreSingle cfg st queryIndex { points := pts, bound := b }
      if r.2.isSome then baseCaseLoop cfg r.1 queryIndex pts else r.1
  | RefTree.node b l r =>
      let s := scoreSingle cfg st queryIndex (RefTree.asNode (RefTree.node b l r))
      if s.2.isSome then
        singleTreeTraverse cfg queryIndex (singleTreeTraverse cfg queryIndex s.1 l) r
      else s.1

/-- The brute-force density of a query point over a range of reference
points: the sum of the kernel of each pairwise distance, the query point
itself excluded when the sets coincide. -/
def exactDensity {α β : Type} [Inhabited α] (cfg : KDEConfig α β)
    (queryIndex : ℕ) (pts : List ℕ) : ℚ :=
  ((pts.filter (fun j => !(cfg.sameSet && j == queryIndex))).map
    (fun j => EvaluateKernel cfg queryIndex j)).sum

/-- The adapter contract for one bounding volume against one query point:
the minimum distance is at most the maximum distance, and the distance of
every contained reference point to the query lies between them. -/
def boundValidPB {α β : Type} [Inhabited α] (cfg : KDEConfig α β) (q : α)
    (b : β) (pts : List ℕ) : Prop :=
  cfg.minDistPB q b ≤ cfg.maxDistPB q b ∧
  ∀ j ∈ pts,
    cfg.minDistPB q b ≤ cfg.metric q (cfg.referenceSet.getD j default) ∧
    cfg.metric q (cfg.referenceSet.getD j default) ≤ cfg.maxDistPB q b

/-- The adapter contract for every node of a reference tree against one
query point. -/
def RefTree.validFor {α β : Type} [Inhabited α] (cfg : KDEConfig α β) (q : α) :
    RefTree β → Prop
  | RefTree.leaf b pts => boundValidPB cfg q b pts
  | RefTree.node b l r =>
      boundValidPB cfg q b (RefTree.points l ++ RefTree.points r) ∧
      RefTree.validFor cfg q l ∧ RefTree.validFor cfg q r

/-! ### Concrete instances used to evaluate the model on closed inputs -/

/-- A degenerate but well-formed configuration: one reference point, one
query point, the constant kernel `1`, all distances `1`, both tolerances
zero, Monte Carlo disabled. -/
def trivialCfg : KDEConfig ℚ ℚ :=
  { referenceSet := [5]
    querySet := [0]
    relError := 0
    absError := 0
    MCProb := 1 / 2
    initialSampleSize := 1
    metric := fun _ _ => 1
    kernel := fun _ => 1
    monteCarlo := false
    sameSet := false
    minDistPB := fun _ _ => 1
    maxDistPB := fun _ _ => 1
    minDistBB := fun _ _ => 1
    maxDistBB := fun _ _ => 1
    mcDraw := fun _ _ => 0 }

/-- One-dimensional configuration over interval bounding volumes: query
point `0`, reference points `1`, `4`, `7`; the kernel is `10 - d`
(decreasing); relative tolerance `0`, absolute tolerance `2`; Monte Carlo
disabled.  A bounding volume is an interval `(lo, hi)` left of which the
query sits, so the point-to-volume distance bounds are `lo - q` and
`hi - q`. -/
def c1cexCfg : KDEConfig ℚ (ℚ × ℚ) :=
  { referenceSet := [1, 4, 7]
    querySet := [0]
    relError := 0
    absError := 2
    MCProb := 1 / 2
    initialSampleSize := 1
    metric := fun x y => |x - y|
    kernel := fun d => 10 - d
    monteCarlo := false
    sameSet := false
    minDistPB := fun q b => b.1 - q
    maxDistPB := fun q b => b.2 - q
    minDistBB := fun _ _ => 0
    maxDistBB := fun _ _ => 0
    mcDraw := fun _ _ => 0 }

/-- A three-leaf reference tree over the points of `c1cexCfg`, every leaf
bound bracketing its point's distance: each leaf passes the exact-pruning
test with a bound gap of exactly the absolute tolerance, while both inner
nodes fail it and are recursed into. -/
def c1cexTree : RefTree (ℚ × ℚ) :=
  RefTree.node (1, 9) (RefTree.leaf (1, 3) [0])
    (RefTree.node (4, 9) (RefTree.leaf (4, 6) [1]) (RefTree.leaf (7, 9) [2]))

/-- Configuration for the zero-tolerance pruning counterexample: one
reference point at distance `5` whose bounding volume is the zero-width
interval `(5, 5)`. -/
def c9cexCfg : KDEConfig ℚ (ℚ × ℚ) :=
  { referenceSet := [5]
    querySet := [0]
    relError := 0
    absError := 0
    MCProb := 1 / 2
    initialSampleSize := 1
    metric := fun x y => |x - y|
    kernel := fun d => 10 - d
    monteCarlo := false
    sameSet := false
    minDistPB := fun q b => b.1 - q
    maxDistPB := fun q b => b.2 - q
    minDistBB := fun _ _ => 0
    maxDistBB := fun _ _ => 0
    mcDraw := fun _ _ => 0 }

/-- The zero-width, nonempty reference node of the zero-tolerance pruning
counterexample. -/
def c9cexNode : KDENode (ℚ × ℚ) :=
  { points := [0], bound := (5, 5) }

/-- Configuration for the Monte Carlo pruning counterexample: ten reference
points, all of value `5` (so every sampled kernel value coincides and the
sample variance vanishes), kernel `10 - d`, tolerances small enough that
the exact-pruning test fails, Monte Carlo enabled with initial sample
size `2`. -/
def c4cexCfg : KDEConfig ℚ (ℚ × ℚ) :=
  { referenceSet := [5, 5, 5, 5, 5, 5, 5, 5, 5, 5]
    querySet := [0]
    relError := 1 / 10
    absError := 1 / 100
    MCProb := 95 / 100
    initialSampleSize := 2
    metric := fun x y => |x - y|
    kernel := fun d => 10 - d
    monteCarlo := true
    sameSet := false
    minDistPB := fun q b => b.1 - q
    maxDistPB := fun q b => b.2 - q
    minDistBB := fun _ _ => 0
    maxDistBB := fun _ _ => 0
    mcDraw := fun _ _ => 0 }

/-- The wide reference node of the Monte Carlo counterexample: all ten
points, bounding interval `(1, 9)`. -/
def c4cexNode : KDENode (ℚ × ℚ) :=
  { points := [0, 1, 2, 3, 4, 5, 6, 7, 8, 9], bound := (1, 9) }

end KDE

namespace KDE

/-! ### Small list lemmas -/

theorem getD_set_self (l : List ℚ) (i : ℕ) (v : ℚ) (h : i < l.length) :
    (l.set i v).getD i 0 = v := by
  rw [List.getD_eq_getElem?_getD, List.getElem?_set_self]
  · rfl
  · exact h

theorem getD_set_ne (l : List ℚ) (i k : ℕ) (v : ℚ) (h : i ≠ k) :
    (l.set i v).getD k 0 = l.getD k 0 := by
  rw [List.getD_eq_getElem?_getD, List.getElem?_set_ne h, ← List.getD_eq_getElem?_getD]

theorem addToAll_length (pts : List ℕ) (densities : List ℚ) (f : ℕ → ℚ) :
    (addToAll densities pts f).length = densities.length := by
  induction pts generalizing densities with
  | nil => rfl
  | cons a tl ih =>
      calc (addToAll densities (a :: tl) f).length
          = (addToAll (densities.set a (densities.getD a 0 + f a)) tl f).length := rfl
        _ = (densities.set a (densities.getD a 0 + f a)).length := ih _
        _ = densities.length := densities.length_set a _

theorem addToAll_getD_notMem (pts : List ℕ) (densities : List ℚ) (f : ℕ → ℚ)
    (p : ℕ) (hp : p ∉ pts) :
    (addToAll densities pts f).getD p 0 = densities.getD p 0 := by
  induction pts generalizing densities with
  | nil => rfl
  | cons a tl ih =>
      have ha : a ≠ p := fun h => hp (h ▸ List.mem_cons_self a tl)
      have htl : p ∉ tl := fun h => hp (List.mem_cons_of_mem a h)
      calc (addToAll densities (a :: tl) f).getD p 0
          = (addToAll (densities.set a (densities.getD a 0 + f a)) tl f).getD p 0 := rfl
        _ = (densities.set a (densities.getD a 0 + f a)).getD p 0 := ih _ htl
        _ = densities.getD p 0 := getD_set_ne _ _ _ _ ha

theorem addToAll_getD (pts : List ℕ) (densities : List ℚ) (f : ℕ → ℚ)
    (hnd : pts.Nodup) (p : ℕ) (hp : p ∈ pts) (hlt : p < densities.length) :
    (addToAll densities pts f).getD p 0 = densities.getD p 0 + f p := by
  induction pts generalizing densities with
  | nil => cases hp
  | cons a tl ih =>
      rcases List.mem_cons.mp hp with h | h
      · subst h
        have hnotin : p ∉ tl := (List.nodup_cons.mp hnd).1
        calc (addToAll densities (p :: tl) f).getD p 0
            = (addToAll (densities.set p (densities.getD p 0 + f p)) tl f).getD p 0 := rfl
          _ = (densities.set p (densities.getD p 0 + f p)).getD p 0 :=
              addToAll_getD_notMem _ _ _ _ hnotin
          _ = densities.getD p 0 + f p := getD_set_self _ _ _ hlt
      · have ha : a ≠ p := by
          rintro rfl
          exact (List.nodup_cons.mp hnd).1 h
        calc (addToAll densities (a :: tl) f).getD p 0
            = (addToAll (densities.set a (densities.getD a 0 + f a)) tl f).getD p 0 := rfl
          _ = (densities.set a (densities.getD a 0 + f a)).getD p 0 + f p := by
              refine ih _ (List.nodup_cons.mp hnd).2 h ?_
              simpa using hlt
          _ = densities.getD p 0 + f p := by rw [getD_set_ne _ _ _ _ ha]

end KDE

namespace KDE

/-! ### Claims about the bandwidth accessor, Rescore and the base case -/

/-- Claim C7: requesting the kernel bandwidth yields the invalid-argument
configuration error exactly when the configured kernel does not expose a
bandwidth capability; when the kernel does expose it, the accessor
returns the kernel's bandwidth without error. -/
theorem claim_C7_bandwidth (k : KernelObject) :
    ((∃ msg, GetKernelBandwidth k = Except.error (KDEError.invalidArgument msg)) ↔
      k.bandwidth = none) ∧
    (∀ b, k.bandwidth = some b → GetKernelBandwidth k = Except.ok b) := by
  refine ⟨⟨fun ⟨msg, h⟩ => ?_, fun hb => ?_⟩, fun b hb => ?_⟩
  · cases hb : k.bandwidth with
    | none => rfl
    | some b => rw [GetKernelBandwidth, hb] at h; cases h
  · exact ⟨"cannot get bandwidth from kernel", by rw [GetKernelBandwidth, hb]⟩
  · rw [GetKernelBandwidth, hb]

/-- Witness for C7: a kernel exposing bandwidth `2` yields `ok 2`, and a
kernel without the capability yields the invalid-argument error. -/
theorem claim_C7_bandwidth_witness :
    GetKernelBandwidth { evaluate := fun _ => 1, bandwidth := some 2 } = Except.ok 2 ∧
    (∃ msg, GetKernelBandwidth { evaluate := fun _ => 1, bandwidth := none } =
      Except.error (KDEError.invalidArgument msg)) :=
  ⟨(claim_C7_bandwidth { evaluate := fun _ => 1, bandwidth := some 2 }).2 2 rfl,
   (claim_C7_bandwidth { evaluate := fun _ => 1, bandwidth := none }).1.mpr rfl⟩

/-- Claim C10: both Rescore overloads are observably pure: for every input
and old score, the rules state (density accumulator, memo slot and last
base-case value, and both counters) is returned unchanged, whether the
result is the pruned sentinel or the old score. -/
theorem claim_C10_rescore_pure {α β : Type} (cfg : KDEConfig α β) (st : KDEState)
    (queryIndex : ℕ) (queryNode refNode : KDENode β) (oldScore : Option ℚ) :
    (rescoreSingle cfg st queryIndex refNode oldScore).1 = st ∧
    (rescoreDual cfg st queryNode refNode oldScore).1 = st :=
  ⟨rfl, rfl⟩

/-- Claim C8: a reference node containing zero points is an immediate prune
for both Score overloads, with zero contribution to the accumulator.  (The
not-a-number clause of the claim is vacuous in this exact-arithmetic
embedding: every bound value is a defined rational.) -/
theorem claim_C8_empty_node {α β : Type} [Inhabited α] (cfg : KDEConfig α β)
    (st : KDEState) (queryIndex : ℕ) (queryNode refNode : KDENode β)
    (h : refNode.points = []) :
    (scoreSingle cfg st queryIndex refNode).2 = none ∧
    (scoreSingle cfg st queryIndex refNode).1.densities = st.densities ∧
    (scoreDual cfg st queryNode refNode).2 = none ∧
    (scoreDual cfg st queryNode refNode).1.densities = st.densities := by
  simp [scoreSingle, scoreDual, h]

/-- Witness for C8 at a concrete empty node. -/
theorem claim_C8_empty_node_witness :
    (scoreSingle trivialCfg (KDERules.init [0]) 0
        { points := ([] : List ℕ), bound := (1 : ℚ) }).2 = none ∧
    (scoreDual trivialCfg (KDERules.init [0]) { points := [0], bound := (1 : ℚ) }
        { points := ([] : List ℕ), bound := (1 : ℚ) }).2 = none := by
  refine ⟨(claim_C8_empty_node trivialCfg (KDERules.init [0]) 0
    { points := [0], bound := 1 } { points := [], bound := 1 } rfl).1, ?_⟩
  exact (claim_C8_empty_node trivialCfg (KDERules.init [0]) 0
    { points := [0], bound := 1 } { points := [], bound := 1 } rfl).2.2.1

/-- Claim C5: for a kernel that is non-increasing in distance and a valid
query/reference pair (minimum distance at most maximum distance), the
kernel upper bound Score computes from the minimum distance is at least
the kernel lower bound it computes from the maximum distance — in both
the point-to-node and the node-to-node form. -/
theorem claim_C5_kernel_bound_order {α β : Type} (cfg : KDEConfig α β) (q : α)
    (qb b : β) (hker : Antitone cfg.kernel)
    (h1 : cfg.minDistPB q b ≤ cfg.maxDistPB q b)
    (h2 : cfg.minDistBB qb b ≤ cfg.maxDistBB qb b) :
    (kernelBoundsPB cfg q b).2 ≤ (kernelBoundsPB cfg q b).1 ∧
    (kernelBoundsBB cfg qb b).2 ≤ (kernelBoundsBB cfg qb b).1 :=
  ⟨hker h1, hker h2⟩

/-- Witness for C5 at the constant-kernel configuration. -/
theorem claim_C5_kernel_bound_order_witness :
    (kernelBoundsPB trivialCfg 0 1).2 ≤ (kernelBoundsPB trivialCfg 0 1).1 ∧
    (kernelBoundsBB trivialCfg 1 1).2 ≤ (kernelBoundsBB trivialCfg 1 1).1 :=
  claim_C5_kernel_bound_order trivialCfg 0 1 1 antitone_const le_rfl le_rfl

/-- Claim C6: for every query (point or node), reference node and old
score, Rescore re-evaluates the exact-pruning pass/fail test of Score's
step 4 with the current accumulator value (the bound gap carried by the
old score is reused, no geometric bound is recomputed) and returns the
pruned sentinel exactly when the test now passes, and otherwise the old
score unchanged. -/
theorem claim_C6_rescore {α β : Type} (cfg : KDEConfig α β) (st : KDEState)
    (queryIndex : ℕ) (queryNode refNode : KDENode β) (gap : ℚ) :
    ((rescoreSingle cfg st queryIndex refNode (some gap)).2 = none ↔
      exactPruneTest cfg gap (st.densities.getD queryIndex 0)) ∧
    (¬ exactPruneTest cfg gap (st.densities.getD queryIndex 0) →
      (rescoreSingle cfg st queryIndex refNode (some gap)).2 = some gap) ∧
    ((rescoreDual cfg st queryNode refNode (some gap)).2 = none ↔
      exactPruneTest cfg gap (worstEstimate st queryNode.points)) ∧
    (¬ exactPruneTest cfg gap (worstEstimate st queryNode.points) →
      (rescoreDual cfg st queryNode refNode (some gap)).2 = some gap) := by
  by_cases h1 : exactPruneTest cfg gap (st.densities.getD queryIndex 0) <;>
    by_cases h2 : exactPruneTest cfg gap (worstEstimate st queryNode.points) <;>
      simp [rescoreSingle, rescoreDual, h1, h2]

/-- Witness for C6: with both tolerances zero and an empty accumulator, an
old score of `5` fails the test and is returned unchanged by both
overloads. -/
theorem claim_C6_rescore_witness :
    (rescoreSingle trivialCfg (KDERules.init [0]) 0
        { points := [0], bound := (1 : ℚ) } (some 5)).2 = some 5 ∧
    (rescoreDual trivialCfg (KDERules.init [0]) { points := [0], bound := (1 : ℚ) }
        { points := [0], bound := (1 : ℚ) } (some 5)).2 = some 5 := by
  have h1 : ¬ exactPruneTest trivialCfg 5 ((KDERules.init [0]).densities.getD 0 0) := by
    simp [exactPruneTest, trivialCfg, KDERules.init]
  have h2 : ¬ exactPruneTest trivialCfg 5
      (worstEstimate (KDERules.init [0]) ({ points := [0], bound := (1 : ℚ) } : KDENode ℚ).points) := by
    simp [exactPruneTest, trivialCfg, KDERules.init, worstEstimate, listMin]
  exact ⟨(claim_C6_rescore trivialCfg (KDERules.init [0]) 0
      { points := [0], bound := 1 } { points := [0], bound := 1 } 5).2.1 h1,
    (claim_C6_rescore trivialCfg (KDERules.init [0]) 0
      { points := [0], bound := 1 } { points := [0], bound := 1 } 5).2.2.2 h2⟩

/-- The duplicate path of `BaseCase`: the pair recorded in the memo slot is
answered from the memo without touching the state. -/
theorem BaseCase_dup {α β : Type} [Inhabited α] (cfg : KDEConfig α β)
    (st : KDEState) (i j : ℕ) (h : st.lastPair = some (i, j)) :
    BaseCase cfg st i j = (st, st.lastBaseCase) := by
  simp [BaseCase, h]

/-- Claim C2: for a (query, reference) pair that is not the recorded
duplicate of the memo slot (the duplicate path is claim C3), BaseCase
computes `kernel(metric(query_i, reference_j))`, adds it to
`accumulator[i]` unless `sameSet` holds and `i = j` (the self-contribution
is excluded: the accumulator is unchanged, so `kernel(0)` is never
self-added), increments the base-case counter, and returns the computed
kernel value. -/
theorem claim_C2_basecase {α β : Type} [Inhabited α] (cfg : KDEConfig α β)
    (st : KDEState) (i j : ℕ) (hdup : st.lastPair ≠ some (i, j)) :
    (BaseCase cfg st i j).2 =
      cfg.kernel (cfg.metric (cfg.querySet.getD i default)
        (cfg.referenceSet.getD j default)) ∧
    (BaseCase cfg st i j).1.baseCases = st.baseCases + 1 ∧
    (cfg.sameSet = true ∧ i = j → (BaseCase cfg st i j).1.densities = st.densities) ∧
    (¬ (cfg.sameSet = true ∧ i = j) →
      (BaseCase cfg st i j).1.densities =
        st.densities.set i (st.densities.getD i 0 + EvaluateKernel cfg i j)) := by
  refine ⟨?_, ?_, ?_, ?_⟩
  · simp [BaseCase, hdup, EvaluateKernel]
  · simp [BaseCase, hdup]
  · intro hself
    obtain ⟨hs, rfl⟩ := hself
    simp [BaseCase, hdup, hs]
  · intro hns
    simp [BaseCase, hdup, hns]

/-- Witness for C2 at the concrete configuration: a fresh rules object has
an empty memo slot, and the base case on pair `(0, 0)` (distinct sets)
returns the kernel value `1` and accumulates it. -/
theorem claim_C2_basecase_witness :
    (BaseCase trivialCfg (KDERules.init [0]) 0 0).2 = 1 ∧
    (BaseCase trivialCfg (KDERules.init [0]) 0 0).1.densities = [1] := by
  have hdup : (KDERules.init [0]).lastPair ≠ some (0, 0) := by
    simp [KDERules.init]
  have h := claim_C2_basecase trivialCfg (KDERules.init [0]) 0 0 hdup
  refine ⟨h.1.trans rfl, (h.2.2.2 ?_).trans ?_⟩
  · simp [trivialCfg]
  · simp [KDERules.init, trivialCfg, EvaluateKernel]

/-- Claim C3: BaseCase is idempotent under duplicate invocation: called
with the pair recorded in the memo slot it returns the previously
computed value and leaves the whole state (in particular the accumulator)
unchanged; consequently running BaseCase again right after itself on the
same pair changes nothing, so a pair reached twice in a row through two
traversal paths is accumulated exactly once. -/
theorem claim_C3_basecase_idempotent {α β : Type} [Inhabited α]
    (cfg : KDEConfig α β) (st : KDEState) (i j : ℕ) :
    (st.lastPair = some (i, j) → BaseCase cfg st i j = (st, st.lastBaseCase)) ∧
    BaseCase cfg (BaseCase cfg st i j).1 i j = BaseCase cfg st i j := by
  constructor
  · exact BaseCase_dup cfg st i j
  · by_cases h : st.lastPair = some (i, j)
    · rw [BaseCase_dup cfg st i j h]
      exact BaseCase_dup cfg st i j h
    · have h1 : (BaseCase cfg st i j).1.lastPair = some (i, j) := by
        simp [BaseCase, h]
      have h2 : (BaseCase cfg st i j).1.lastBaseCase = EvaluateKernel cfg i j := by
        simp [BaseCase, h]
      have h3 : (BaseCase cfg st i j).2 = EvaluateKernel cfg i j := by
        simp [BaseCase, h]
      rw [BaseCase_dup cfg _ i j h1, h2, ← h3]

/-- Witness for C3: after a first base case on the fresh pair `(0, 0)`, the
immediate duplicate invocation returns the same state and value. -/
theorem claim_C3_basecase_idempotent_witness :
    BaseCase trivialCfg (BaseCase trivialCfg (KDERules.init [0]) 0 0).1 0 0 =
      BaseCase trivialCfg (KDERules.init [0]) 0 0 :=
  (claim_C3_basecase_idempotent trivialCfg (KDERules.init [0]) 0 0).2

end KDE

namespace KDE

/-! ### Claim C4: the exact-pruning decision of Score -/

/-- Characterization of the single-tree Score with Monte Carlo disabled:
it prunes exactly when the exact-pruning test passes, adding the midpoint
contribution on a prune and returning the bound gap unchanged otherwise. -/
theorem scoreSingle_char {α β : Type} [Inhabited α] (cfg : KDEConfig α β)
    (st : KDEState) (queryIndex : ℕ) (refNode : KDENode β)
    (hmc : cfg.monteCarlo = false)
    (hrel : 0 ≤ cfg.relError) (habs : 0 ≤ cfg.absError)
    (hi : queryIndex < st.densities.length)
    (hests : 0 ≤ st.densities.getD queryIndex 0) :
    ((scoreSingle cfg st queryIndex refNode).2 = none ↔
      exactPruneTest cfg
        ((refNode.points.length : ℚ) *
            (kernelBoundsPB cfg (cfg.querySet.getD queryIndex default) refNode.bound).1 -
          (refNode.points.length : ℚ) *
            (kernelBoundsPB cfg (cfg.querySet.getD queryIndex default) refNode.bound).2)
        (st.densities.getD queryIndex 0)) ∧
    (exactPruneTest cfg
        ((refNode.points.length : ℚ) *
            (kernelBoundsPB cfg (cfg.querySet.getD queryIndex default) refNode.bound).1 -
          (refNode.points.length : ℚ) *
            (kernelBoundsPB cfg (cfg.querySet.getD queryIndex default) refNode.bound).2)
        (st.densities.getD queryIndex 0) →
      (scoreSingle cfg st queryIndex refNode).1.densities.getD queryIndex 0 =
        st.densities.getD queryIndex 0 +
          (refNode.points.length : ℚ) *
            (((kernelBoundsPB cfg (cfg.querySet.getD queryIndex default) refNode.bound).1 +
              (kernelBoundsPB cfg (cfg.querySet.getD queryIndex default) refNode.bound).2) / 2)) ∧
    (¬ exactPruneTest cfg
        ((refNode.points.length : ℚ) *
            (kernelBoundsPB cfg (cfg.querySet.getD queryIndex default) refNode.bound).1 -
          (refNode.points.length : ℚ) *
            (kernelBoundsPB cfg (cfg.querySet.getD queryIndex default) refNode.bound).2)
        (st.densities.getD queryIndex 0) →
      (scoreSingle cfg st queryIndex refNode).2 =
        some ((refNode.points.length : ℚ) *
            (kernelBoundsPB cfg (cfg.querySet.getD queryIndex default) refNode.bound).1 -
          (refNode.points.length : ℚ) *
            (kernelBoundsPB cfg (cfg.querySet.getD queryIndex default) refNode.bound).2) ∧
      (scoreSingle cfg st queryIndex refNode).1.densities = st.densities) := by
  by_cases hemp : refNode.points.isEmpty = true
  · have hpts : refNode.points = [] := List.isEmpty_iff.mp hemp
    have htest : exactPruneTest cfg
        ((refNode.points.length : ℚ) *
            (kernelBoundsPB cfg (cfg.querySet.getD queryIndex default) refNode.bound).1 -
          (refNode.points.length : ℚ) *
            (kernelBoundsPB cfg (cfg.querySet.getD queryIndex default) refNode.bound).2)
        (st.densities.getD queryIndex 0) := by
      rw [exactPruneTest, hpts]
      simpa using add_nonneg (mul_nonneg hrel hests) habs
    refine ⟨?_, fun _ => ?_, fun hc => absurd htest hc⟩
    · simp only [scoreSingle]
      rw [if_pos hemp]
      simpa using htest
    · simp only [scoreSingle]
      rw [if_pos hemp]
      simp [hpts]
  · by_cases htest : exactPruneTest cfg
        ((refNode.points.length : ℚ) *
            (kernelBoundsPB cfg (cfg.querySet.getD queryIndex default) refNode.bound).1 -
          (refNode.points.length : ℚ) *
            (kernelBoundsPB cfg (cfg.querySet.getD queryIndex default) refNode.bound).2)
        (st.densities.getD queryIndex 0)
    · refine ⟨?_, fun _ => ?_, fun hc => absurd htest hc⟩
      · simp only [scoreSingle]
        rw [if_neg hemp, if_pos htest]
        simpa using htest
      · simp only [scoreSingle]
        rw [if_neg hemp, if_pos htest]
        exact getD_set_self _ _ _ hi
    · refine ⟨?_, fun hc => absurd hc htest, fun _ => ⟨?_, ?_⟩⟩
      · simp only [scoreSingle]
        rw [if_neg hemp, if_neg htest, hmc]
        simpa using htest
      · simp only [scoreSingle]
        rw [if_neg hemp, if_neg htest, hmc]
        simp
      · simp only [scoreSingle]
        rw [if_neg hemp, if_neg htest, hmc]
        simp

/-- Characterization of the dual-tree Score with Monte Carlo disabled:
as the single-tree form, against the query node's worst-case partial
estimate, updating every contained query point's accumulator slot. -/
theorem scoreDual_char {α β : Type} [Inhabited α] (cfg : KDEConfig α β)
    (st : KDEState) (queryNode refNode : KDENode β)
    (hmc : cfg.monteCarlo = false)
    (hrel : 0 ≤ cfg.relError) (habs : 0 ≤ cfg.absError)
    (hestd : 0 ≤ worstEstimate st queryNode.points)
    (hqnd : queryNode.points.Nodup)
    (hqlen : ∀ p ∈ queryNode.points, p < st.densities.length) :
    ((scoreDual cfg st queryNode refNode).2 = none ↔
      exactPruneTest cfg
        ((refNode.points.length : ℚ) *
            (kernelBoundsBB cfg queryNode.bound refNode.bound).1 -
          (refNode.points.length : ℚ) *
            (kernelBoundsBB cfg queryNode.bound refNode.bound).2)
        (worstEstimate st queryNode.points)) ∧
    (exactPruneTest cfg
        ((refNode.points.length : ℚ) *
            (kernelBoundsBB cfg queryNode.bound refNode.bound).1 -
          (refNode.points.length : ℚ) *
            (kernelBoundsBB cfg queryNode.bound refNode.bound).2)
        (worstEstimate st queryNode.points) →
      ∀ p ∈ queryNode.points,
        (scoreDual cfg st queryNode refNode).1.densities.getD p 0 =
          st.densities.getD p 0 +
            (refNode.points.length : ℚ) *
              (((kernelBoundsBB cfg queryNode.bound refNode.bound).1 +
                (kernelBoundsBB cfg queryNode.bound refNode.bound).2) / 2)) ∧
    (¬ exactPruneTest cfg
        ((refNode.points.length : ℚ) *
            (kernelBoundsBB cfg queryNode.bound refNode.bound).1 -
          (refNode.points.length : ℚ) *
            (kernelBoundsBB cfg queryNode.bound refNode.bound).2)
        (worstEstimate st queryNode.points) →
      (scoreDual cfg st queryNode refNode).2 =
        some ((refNode.points.length : ℚ) *
            (kernelBoundsBB cfg queryNode.bound refNode.bound).1 -
          (refNode.points.length : ℚ) *
            (kernelBoundsBB cfg queryNode.bound refNode.bound).2) ∧
      (scoreDual cfg st queryNode refNode).1.densities = st.densities) := by
  by_cases hemp : refNode.points.isEmpty = true
  · have hpts : refNode.points = [] := List.isEmpty_iff.mp hemp
    have htest : exactPruneTest cfg
        ((refNode.points.length : ℚ) *
            (kernelBoundsBB cfg queryNode.bound refNode.bound).1 -
          (refNode.points.length : ℚ) *
            (kernelBoundsBB cfg queryNode.bound refNode.bound).2)
        (worstEstimate st queryNode.points) := by
      rw [exactPruneTest, hpts]
      simpa using add_nonneg (mul_nonneg hrel hestd) habs
    refine ⟨?_, fun _ => ?_, fun hc => absurd htest hc⟩
    · simp only [scoreDual]
      rw [if_pos hemp]
      simpa using htest
    · intro p hp
      simp only [scoreDual]
      rw [if_pos hemp]
      simp [hpts]
  · by_cases htest : exactPruneTest cfg
        ((refNode.points.length : ℚ) *
            (kernelBoundsBB cfg queryNode.bound refNode.bound).1 -
          (refNode.points.length : ℚ) *
            (kernelBoundsBB cfg queryNode.bound refNode.bound).2)
        (worstEstimate st queryNode.points)
    · refine ⟨?_, fun _ => ?_, fun hc => absurd htest hc⟩
      · simp only [scoreDual]
        rw [if_neg hemp, if_pos htest]
        simpa using htest
      · intro p hp
        simp only [scoreDual]
        rw [if_neg hemp, if_pos htest]
        exact addToAll_getD _ _ _ hqnd p hp (hqlen p hp)
    · refine ⟨?_, fun hc => absurd hc htest, fun _ => ⟨?_, ?_⟩⟩
      · simp only [scoreDual]
        rw [if_neg hemp, if_neg htest, hmc]
        simpa using htest
      · simp only [scoreDual]
        rw [if_neg hemp, if_neg htest, hmc]
        simp
      · simp only [scoreDual]
        rw [if_neg hemp, if_neg htest, hmc]
        simp

end KDE

namespace KDE

/-- Claim C4 (amended): with Monte Carlo estimation disabled, Score prunes
exactly when the node-pair uncertainty passes the additive tolerance test
`(upperBound - lowerBound) ≤ relError * currentPartialEstimate + absError`
(one query point with its own partial estimate in single-tree mode; the
query node's contained point range with its worst-case partial estimate
in dual-tree mode); on a prune it adds the midpoint contribution directly
to the affected accumulator slot(s), and otherwise it returns the finite
bound gap so the driver recurses, leaving the accumulator unchanged.
(With Monte Carlo enabled, Score may additionally prune on a certified
sample estimate even though the test fails: see the counterexample.) -/
theorem claim_C4_exact_prune {α β : Type} [Inhabited α] (cfg : KDEConfig α β)
    (st : KDEState) (queryIndex : ℕ) (queryNode refNode : KDENode β)
    (hmc : cfg.monteCarlo = false)
    (hrel : 0 ≤ cfg.relError) (habs : 0 ≤ cfg.absError)
    (hi : queryIndex < st.densities.length)
    (hests : 0 ≤ st.densities.getD queryIndex 0)
    (hestd : 0 ≤ worstEstimate st queryNode.points)
    (hqnd : queryNode.points.Nodup)
    (hqlen : ∀ p ∈ queryNode.points, p < st.densities.length) :
    ((scoreSingle cfg st queryIndex refNode).2 = none ↔
      exactPruneTest cfg
        ((refNode.points.length : ℚ) *
            (kernelBoundsPB cfg (cfg.querySet.getD queryIndex default) refNode.bound).1 -
          (refNode.points.length : ℚ) *
            (kernelBoundsPB cfg (cfg.querySet.getD queryIndex default) refNode.bound).2)
        (st.densities.getD queryIndex 0)) ∧
    (exactPruneTest cfg
        ((refNode.points.length : ℚ) *
            (kernelBoundsPB cfg (cfg.querySet.getD queryIndex default) refNode.bound).1 -
          (refNode.points.length : ℚ) *
            (kernelBoundsPB cfg (cfg.querySet.getD queryIndex default) refNode.bound).2)
        (st.densities.getD queryIndex 0) →
      (scoreSingle cfg st queryIndex refNode).1.densities.getD queryIndex 0 =
        st.densities.getD queryIndex 0 +
          (refNode.points.length : ℚ) *
            (((kernelBoundsPB cfg (cfg.querySet.getD queryIndex default) refNode.bound).1 +
              (kernelBoundsPB cfg (cfg.querySet.getD queryIndex default) refNode.bound).2) / 2)) ∧
    (¬ exactPruneTest cfg
        ((refNode.points.length : ℚ) *
            (kernelBoundsPB cfg (cfg.querySet.getD queryIndex default) refNode.bound).1 -
          (refNode.points.length : ℚ) *
            (kernelBoundsPB cfg (cfg.querySet.getD queryIndex default) refNode.bound).2)
        (st.densities.getD queryIndex 0) →
      (scoreSingle cfg st queryIndex refNode).2 =
        some ((refNode.points.length : ℚ) *
            (kernelBoundsPB cfg (cfg.querySet.getD queryIndex default) refNode.bound).1 -
          (refNode.points.length : ℚ) *
            (kernelBoundsPB cfg (cfg.querySet.getD queryIndex default) refNode.bound).2) ∧
      (scoreSingle cfg st queryIndex refNode).1.densities = st.densities) ∧
    ((scoreDual cfg st queryNode refNode).2 = none ↔
      exactPruneTest cfg
        ((refNode.points.length : ℚ) *
            (kernelBoundsBB cfg queryNode.bound refNode.bound).1 -
          (refNode.points.length : ℚ) *
            (kernelBoundsBB cfg queryNode.bound refNode.bound).2)
        (worstEstimate st queryNode.points)) ∧
    (exactPruneTest cfg
        ((refNode.points.length : ℚ) *
            (kernelBoundsBB cfg queryNode.bound refNode.bound).1 -
          (refNode.points.length : ℚ) *
            (kernelBoundsBB cfg queryNode.bound refNode.bound).2)
        (worstEstimate st queryNode.points) →
      ∀ p ∈ queryNode.points,
        (scoreDual cfg st queryNode refNode).1.densities.getD p 0 =
          st.densities.getD p 0 +
            (refNode.points.length : ℚ) *
              (((kernelBoundsBB cfg queryNode.bound refNode.bound).1 +
                (kernelBoundsBB cfg queryNode.bound refNode.bound).2) / 2)) ∧
    (¬ exactPruneTest cfg
        ((refNode.points.length : ℚ) *
            (kernelBoundsBB cfg queryNode.bound refNode.bound).1 -
          (refNode.points.length : ℚ) *
            (kernelBoundsBB cfg queryNode.bound refNode.bound).2)
        (worstEstimate st queryNode.points) →
      (scoreDual cfg st queryNode refNode).2 =
        some ((refNode.points.length : ℚ) *
            (kernelBoundsBB cfg queryNode.bound refNode.bound).1 -
          (refNode.points.length : ℚ) *
            (kernelBoundsBB cfg queryNode.bound refNode.bound).2) ∧
      (scoreDual cfg st queryNode refNode).1.densities = st.densities) := by
  have h1 := scoreSingle_char cfg st queryIndex refNode hmc hrel habs hi hests
  have h2 := scoreDual_char cfg st queryNode refNode hmc hrel habs hestd hqnd hqlen
  exact ⟨h1.1, h1.2.1, h1.2.2, h2.1, h2.2.1, h2.2.2⟩

/-- Witness for the amended C4: at the constant-kernel configuration the
bound gap is zero, the test passes, and both Score overloads prune. -/
theorem claim_C4_exact_prune_witness :
    (scoreSingle trivialCfg (KDERules.init [0]) 0
        { points := [0], bound := (1 : ℚ) }).2 = none ∧
    (scoreDual trivialCfg (KDERules.init [0]) { points := [0], bound := (1 : ℚ) }
        { points := [0], bound := (1 : ℚ) }).2 = none := by
  have h := claim_C4_exact_prune trivialCfg (KDERules.init [0]) 0
    { points := [0], bound := 1 } { points := [0], bound := 1 }
    rfl le_rfl le_rfl (by norm_num [KDERules.init])
    (by norm_num [KDERules.init]) (by norm_num [worstEstimate, listMin, KDERules.init])
    (by decide) (by norm_num [KDERules.init])
  refine ⟨h.1.mpr ?_, h.2.2.2.1.mpr ?_⟩
  · norm_num [exactPruneTest, trivialCfg, kernelBoundsPB, KDERules.init]
  · norm_num [exactPruneTest, trivialCfg, kernelBoundsBB, worstEstimate, listMin,
      KDERules.init]

/-- Counterexample to C4 as stated: with Monte Carlo enabled, over ten
coincident reference points in a wide bounding volume, the single-tree
Score returns the pruned sentinel although the additive tolerance test
fails (the zero-variance sample certifies the Chebyshev width test at the
first escalation round). -/
theorem claim_C4_counterexample :
    (scoreSingle c4cexCfg (KDERules.init [0]) 0 c4cexNode).2 = none ∧
    ¬ exactPruneTest c4cexCfg
        ((c4cexNode.points.length : ℚ) *
            (kernelBoundsPB c4cexCfg (c4cexCfg.querySet.getD 0 default) c4cexNode.bound).1 -
          (c4cexNode.points.length : ℚ) *
            (kernelBoundsPB c4cexCfg (c4cexCfg.querySet.getD 0 default) c4cexNode.bound).2)
        ((KDERules.init [0]).densities.getD 0 0) := by
  constructor
  · have hrounds : mcRounds c4cexCfg (c4cexNode.points.length) = [0, 1, 2] := by decide
    have hvals : mcSampleVals c4cexCfg ((c4cexCfg.querySet).getD 0 default) c4cexNode 0 =
        [5, 5] := by
      norm_num [mcSampleVals, c4cexCfg, c4cexNode, List.range_succ]
    have hwidth : mcWidthOK c4cexCfg.relError c4cexCfg.MCProb
        (mcSampleVals c4cexCfg ((c4cexCfg.querySet).getD 0 default) c4cexNode 0) = true := by
      rw [hvals]
      norm_num [mcWidthOK, varOf, meanOf, c4cexCfg]
    have hatt : mcAttempt c4cexCfg ((c4cexCfg.querySet).getD 0 default) c4cexNode =
        some 50 := by
      rw [mcAttempt, hrounds]
      simp only [List.find?_cons, hwidth]
      simp only [Option.map_some']
      rw [hvals]
      norm_num [meanOf, c4cexNode]
    simp only [c4cexCfg, c4cexNode, KDERules.init] at hatt
    norm_num at hatt
    rw [scoreSingle]
    norm_num [c4cexCfg, c4cexNode, KDERules.init, exactPruneTest, kernelBoundsPB, hatt]
  · norm_num [exactPruneTest, c4cexCfg, c4cexNode, kernelBoundsPB, KDERules.init]

end KDE

namespace KDE

/-! ### Helper lemmas for the traversal theorems -/

/-- The fresh path of `BaseCase` in the bichromatic case: the kernel value
is accumulated and the pair memoized. -/
theorem BaseCase_fresh {α β : Type} [Inhabited α] (cfg : KDEConfig α β)
    (st : KDEState) (i j : ℕ) (hdup : st.lastPair ≠ some (i, j))
    (hsame : cfg.sameSet = false) :
    (BaseCase cfg st i j).1 =
      { st with
          densities := st.densities.set i (st.densities.getD i 0 + EvaluateKernel cfg i j)
          lastPair := some (i, j)
          lastBaseCase := EvaluateKernel cfg i j
          baseCases := st.baseCases + 1 } := by
  simp [BaseCase, hdup, hsame]

/-- Brute-force density is additive over a split of the reference range. -/
theorem exactDensity_append {α β : Type} [Inhabited α] (cfg : KDEConfig α β)
    (i : ℕ) (l1 l2 : List ℕ) :
    exactDensity cfg i (l1 ++ l2) = exactDensity cfg i l1 + exactDensity cfg i l2 := by
  simp [exactDensity, List.filter_append]

/-- With distinct query and reference sets no self-exclusion applies. -/
theorem exactDensity_bichromatic {α β : Type} [Inhabited α] (cfg : KDEConfig α β)
    (i : ℕ) (pts : List ℕ) (hsame : cfg.sameSet = false) :
    exactDensity cfg i pts = (pts.map (fun j => EvaluateKernel cfg i j)).sum := by
  simp [exactDensity, hsame]

/-- A sum of listed values bounded elementwise is bounded by the scaled
extremes. -/
theorem sum_map_bounds (pts : List ℕ) (f : ℕ → ℚ) (lo hi : ℚ)
    (h : ∀ j ∈ pts, lo ≤ f j ∧ f j ≤ hi) :
    (pts.length : ℚ) * lo ≤ (pts.map f).sum ∧ (pts.map f).sum ≤ (pts.length : ℚ) * hi := by
  induction pts with
  | nil => simp
  | cons a tl ih =>
      have ha := h a (List.mem_cons_self a tl)
      have htl := ih (fun j hj => h j (List.mem_cons_of_mem a hj))
      simp only [List.map_cons, List.sum_cons, List.length_cons]
      push_cast
      constructor
      · nlinarith [ha.1, htl.1]
      · nlinarith [ha.2, htl.2]

/-- The single-tree Score touches only the accumulator and the score
counter. -/
theorem scoreSingle_frame {α β : Type} [Inhabited α] (cfg : KDEConfig α β)
    (st : KDEState) (queryIndex : ℕ) (refNode : KDENode β) :
    (scoreSingle cfg st queryIndex refNode).1.lastPair = st.lastPair ∧
    (scoreSingle cfg st queryIndex refNode).1.lastBaseCase = st.lastBaseCase ∧
    (scoreSingle cfg st queryIndex refNode).1.baseCases = st.baseCases ∧
    (scoreSingle cfg st queryIndex refNode).1.scores = st.scores + 1 ∧
    (scoreSingle cfg st queryIndex refNode).1.densities.length = st.densities.length := by
  simp only [scoreSingle]
  split
  · exact ⟨rfl, rfl, rfl, rfl, rfl⟩
  · split
    · exact ⟨rfl, rfl, rfl, rfl, List.length_set _ _ _⟩
    · split
      · split
        · exact ⟨rfl, rfl, rfl, rfl, List.length_set _ _ _⟩
        · exact ⟨rfl, rfl, rfl, rfl, rfl⟩
      · exact ⟨rfl, rfl, rfl, rfl, rfl⟩

/-- The leaf loop of the driver adds exactly the kernel sum of the leaf
points (bichromatic, fresh memo slot, no duplicates). -/
theorem baseCaseLoop_spec {α β : Type} [Inhabited α] (cfg : KDEConfig α β) (i : ℕ)
    (hsame : cfg.sameSet = false) :
    ∀ (pts : List ℕ) (st : KDEState), pts.Nodup →
    (∀ j ∈ pts, st.lastPair ≠ some (i, j)) →
    i < st.densities.length →
    (baseCaseLoop cfg st i pts).densities.getD i 0 =
        st.densities.getD i 0 + (pts.map (fun j => EvaluateKernel cfg i j)).sum ∧
    (baseCaseLoop cfg st i pts).densities.length = st.densities.length ∧
    (baseCaseLoop cfg st i pts).scores = st.scores ∧
    ((baseCaseLoop cfg st i pts).lastPair = st.lastPair ∨
      ∃ j ∈ pts, (baseCaseLoop cfg st i pts).lastPair = some (i, j)) := by
  intro pts
  induction pts with
  | nil => intro st _ _ _; simp [baseCaseLoop]
  | cons a tl ih =>
      intro st hnd hfresh hlen
      have hstep := BaseCase_fresh cfg st i a (hfresh a (List.mem_cons_self a tl)) hsame
      have hloop : baseCaseLoop cfg st i (a :: tl) =
          baseCaseLoop cfg (BaseCase cfg st i a).1 i tl := rfl
      set st1 := (BaseCase cfg st i a).1 with hst1
      have hd1 : st1.densities = st.densities.set i (st.densities.getD i 0 + EvaluateKernel cfg i a) := by
        rw [hstep]
      have hl1 : st1.lastPair = some (i, a) := by rw [hstep]
      have hs1 : st1.scores = st.scores := by rw [hstep]
      have hlen1 : i < st1.densities.length := by
        rw [hd1, List.length_set]; exact hlen
      have hfresh1 : ∀ j ∈ tl, st1.lastPair ≠ some (i, j) := by
        intro j hj
        rw [hl1]
        intro hcontra
        have : a = j := by
          have := Option.some.inj hcontra
          exact (Prod.mk.injEq _ _ _ _).mp this |>.2
        exact (List.nodup_cons.mp hnd).1 (this ▸ hj)
      have hrec := ih st1 (List.nodup_cons.mp hnd).2 hfresh1 hlen1
      refine ⟨?_, ?_, ?_, ?_⟩
      · rw [hloop, hrec.1, hd1, getD_set_self _ _ _ hlen]
        simp only [List.map_cons, List.sum_cons]
        ring
      · rw [hloop, hrec.2.1, hd1, List.length_set]
      · rw [hloop, hrec.2.2.1, hs1]
      · rcases hrec.2.2.2 with h | ⟨j, hj, hjl⟩
        · right
          refine ⟨a, List.mem_cons_self a tl, ?_⟩
          rw [hloop, h, hl1]
        · right
          exact ⟨j, List.mem_cons_of_mem a hj, by rw [hloop]; exact hjl⟩

end KDE

namespace KDE

/-! ### The modelled traversal: error accounting -/

/-- A pruned single-tree Score evaluation never decreases the accumulator
and contributes at most half the passed tolerance of error against the
exact kernel sum of the pruned node (bichromatic, valid bounds, antitone
nonnegative kernel). -/
theorem scoreSingle_pruned {α β : Type} [Inhabited α] (cfg : KDEConfig α β)
    (st : KDEState) (i : ℕ) (pts : List ℕ) (b : β)
    (hmc : cfg.monteCarlo = false) (hsame : cfg.sameSet = false)
    (hrel : 0 ≤ cfg.relError) (habs : 0 ≤ cfg.absError)
    (hker0 : ∀ d, 0 ≤ cfg.kernel d) (hanti : Antitone cfg.kernel)
    (hvb : boundValidPB cfg (cfg.querySet.getD i default) b pts)
    (hi : i < st.densities.length) (hnn : 0 ≤ st.densities.getD i 0)
    (hprune : (scoreSingle cfg st i { points := pts, bound := b }).2 = none) :
    st.densities.getD i 0 ≤
      (scoreSingle cfg st i { points := pts, bound := b }).1.densities.getD i 0 ∧
    ∀ E, (scoreSingle cfg st i { points := pts, bound := b }).1.densities.getD i 0 ≤ E →
      |(scoreSingle cfg st i { points := pts, bound := b }).1.densities.getD i 0 -
          st.densities.getD i 0 - exactDensity cfg i pts| ≤
        (cfg.relError * E + cfg.absError) / 2 := by
  have hchar := scoreSingle_char cfg st i ⟨pts, b⟩ hmc hrel habs hi hnn
  have htest := hchar.1.mp hprune
  have hdens := hchar.2.1 htest
  rw [exactPruneTest] at htest
  set q := cfg.querySet.getD i default with hq
  set maxK := (kernelBoundsPB cfg q b).1 with hmaxK
  set minK := (kernelBoundsPB cfg q b).2 with hminK
  have hkb : ∀ j ∈ pts, minK ≤ EvaluateKernel cfg i j ∧ EvaluateKernel cfg i j ≤ maxK := by
    intro j hj
    have hvj := hvb.2 j hj
    exact ⟨hanti hvj.2, hanti hvj.1⟩
  have hsum := sum_map_bounds pts (fun j => EvaluateKernel cfg i j) minK maxK hkb
  have hexact : exactDensity cfg i pts = (pts.map (fun j => EvaluateKernel cfg i j)).sum :=
    exactDensity_bichromatic cfg i pts hsame
  have hk0 : 0 ≤ minK := hker0 _
  have hk1 : 0 ≤ maxK := hker0 _
  have hn0 : 0 ≤ (pts.length : ℚ) := Nat.cast_nonneg _
  dsimp only at htest hdens
  have hmid0 : 0 ≤ (pts.length : ℚ) * ((maxK + minK) / 2) := by
    apply mul_nonneg hn0
    linarith
  constructor
  · rw [hdens]
    linarith
  · intro E hE
    rw [hdens] at hE ⊢
    rw [hexact]
    rw [abs_le]
    have hdE : st.densities.getD i 0 ≤ E := by linarith
    have hrelE : cfg.relError * st.densities.getD i 0 ≤ cfg.relError * E :=
      mul_le_mul_of_nonneg_left hdE hrel
    exact ⟨by linarith [hsum.1, hsum.2], by linarith [hsum.1, hsum.2]⟩

/-- A Score evaluation that does not prune leaves the accumulator
untouched (Monte Carlo disabled). -/
theorem scoreSingle_not_pruned {α β : Type} [Inhabited α] (cfg : KDEConfig α β)
    (st : KDEState) (i : ℕ) (refNode : KDENode β)
    (hmc : cfg.monteCarlo = false)
    (hrel : 0 ≤ cfg.relError) (habs : 0 ≤ cfg.absError)
    (hi : i < st.densities.length) (hnn : 0 ≤ st.densities.getD i 0)
    (h : (scoreSingle cfg st i refNode).2.isSome = true) :
    (scoreSingle cfg st i refNode).1.densities = st.densities := by
  have hchar := scoreSingle_char cfg st i refNode hmc hrel habs hi hnn
  have hne : ¬ (scoreSingle cfg st i refNode).2 = none := by
    intro hcontra
    rw [hcontra] at h
    exact Bool.false_ne_true h
  exact (hchar.2.2 (fun ht => hne (hchar.1.mpr ht))).2

/-- Master induction over the modelled single-tree traversal (bichromatic,
Monte Carlo disabled, antitone nonnegative kernel, valid node bounds,
duplicate-free reference points, fresh memo slot): the traversal only
grows the accumulator slot and the score counter, keeps the accumulator
length, leaves the memo slot on the start value or a visited pair, and
accumulates the subtree contribution to within half the per-evaluation
tolerance per Score evaluation. -/
theorem traverse_spec {α β : Type} [Inhabited α] (cfg : KDEConfig α β) (i : ℕ)
    (hmc : cfg.monteCarlo = false) (hsame : cfg.sameSet = false)
    (hrel : 0 ≤ cfg.relError) (habs : 0 ≤ cfg.absError)
    (hker0 : ∀ d, 0 ≤ cfg.kernel d) (hanti : Antitone cfg.kernel) :
    ∀ (t : RefTree β) (st : KDEState),
    RefTree.validFor cfg (cfg.querySet.getD i default) t →
    (RefTree.points t).Nodup →
    (∀ j ∈ RefTree.points t, st.lastPair ≠ some (i, j)) →
    i < st.densities.length →
    0 ≤ st.densities.getD i 0 →
    (singleTreeTraverse cfg i st t).densities.length = st.densities.length ∧
    st.scores ≤ (singleTreeTraverse cfg i st t).scores ∧
    st.densities.getD i 0 ≤ (singleTreeTraverse cfg i st t).densities.getD i 0 ∧
    ((singleTreeTraverse cfg i st t).lastPair = st.lastPair ∨
      ∃ j ∈ RefTree.points t, (singleTreeTraverse cfg i st t).lastPair = some (i, j)) ∧
    (∀ E, (singleTreeTraverse cfg i st t).densities.getD i 0 ≤ E →
      |(singleTreeTraverse cfg i st t).densities.getD i 0 - st.densities.getD i 0 -
          exactDensity cfg i (RefTree.points t)| ≤
        (((singleTreeTraverse cfg i st t).scores : ℚ) - (st.scores : ℚ)) *
          (cfg.relError * E + cfg.absError) / 2) := by
  intro t
  induction t with
  | leaf b pts =>
      intro st hvalid hnodup hfresh hlen hnn
      have hvb : boundValidPB cfg (cfg.querySet.getD i default) b pts := hvalid
      have hfr := scoreSingle_frame cfg st i ⟨pts, b⟩
      simp only [singleTreeTraverse, RefTree.points] at *
      by_cases hp : (scoreSingle cfg st i { points := pts, bound := b }).2 = none
      · rw [if_neg (by simp [hp])]
        have hb := scoreSingle_pruned cfg st i pts b hmc hsame hrel habs hker0 hanti hvb hlen hnn hp
        refine ⟨hfr.2.2.2.2, by rw [hfr.2.2.2.1]; omega, hb.1, Or.inl hfr.1, ?_⟩
        intro E hE
        have hmain := hb.2 E hE
        rw [hfr.2.2.2.1]
        push_cast
        have hE0 : 0 ≤ E := le_trans (le_trans hnn hb.1) hE
        have hra : 0 ≤ cfg.relError * E + cfg.absError := by
          have := mul_nonneg hrel hE0
          linarith
        have hcoef : ((st.scores : ℚ) + 1 - (st.scores : ℚ)) * (cfg.relError * E + cfg.absError) / 2 =
            (cfg.relError * E + cfg.absError) / 2 := by ring
        rw [hcoef]
        exact hmain
      · have hiss : (scoreSingle cfg st i { points := pts, bound := b }).2.isSome = true := by
          rcases ho : (scoreSingle cfg st i { points := pts, bound := b }).2 with _ | v
          · exact absurd ho hp
          · rfl
        rw [if_pos hiss]
        have hdens := scoreSingle_not_pruned cfg st i ⟨pts, b⟩ hmc hrel habs hlen hnn hiss
        set st1 := (scoreSingle cfg st i { points := pts, bound := b }).1 with hst1
        have hfresh1 : ∀ j ∈ pts, st1.lastPair ≠ some (i, j) := by
          intro j hj
          rw [hfr.1]
          exact hfresh j hj
        have hlen1 : i < st1.densities.length := by rw [hdens]; exact hlen
        have hloop := baseCaseLoop_spec cfg i hsame pts st1 hnodup hfresh1 hlen1
        have hsum0 : 0 ≤ (pts.map (fun j => EvaluateKernel cfg i j)).sum := by
          apply List.sum_nonneg
          intro x hx
          rcases List.mem_map.mp hx with ⟨j, _, rfl⟩
          exact hker0 _
        have hgd1 : st1.densities.getD i 0 = st.densities.getD i 0 := by rw [hdens]
        refine ⟨?_, ?_, ?_, ?_, ?_⟩
        · rw [hloop.2.1, hdens]
        · rw [hloop.2.2.1, hfr.2.2.2.1]; omega
        · rw [hloop.1, hgd1]; linarith
        · rcases hloop.2.2.2 with h | ⟨j, hj, hjl⟩
          · exact Or.inl (by rw [h, hfr.1])
          · exact Or.inr ⟨j, hj, hjl⟩
        · intro E hE
          rw [hloop.1, hgd1] at hE ⊢
          rw [hloop.2.2.1, hfr.2.2.2.1]
          rw [exactDensity_bichromatic cfg i pts hsame]
          have hE0 : 0 ≤ E := by linarith
          have hra : 0 ≤ cfg.relError * E + cfg.absError := by
            have := mul_nonneg hrel hE0
            linarith
          push_cast
          have hz : st.densities.getD i 0 + (pts.map (fun j => EvaluateKernel cfg i j)).sum -
              st.densities.getD i 0 - (pts.map (fun j => EvaluateKernel cfg i j)).sum = 0 := by
            ring
          rw [hz, abs_zero]
          nlinarith
  | node b l r ihl ihr =>
      intro st hvalid hnodup hfresh hlen hnn
      obtain ⟨hvb, hvl, hvr⟩ := hvalid
      simp only [RefTree.points] at hnodup hfresh ⊢
      obtain ⟨hndl, hndr, hdisj⟩ := List.nodup_append.mp hnodup
      have hfr := scoreSingle_frame cfg st i ⟨RefTree.points l ++ RefTree.points r, b⟩
      simp only [singleTreeTraverse, RefTree.asNode]
      by_cases hp : (scoreSingle cfg st i
          { points := RefTree.points l ++ RefTree.points r, bound := b }).2 = none
      · rw [if_neg (by simp [hp])]
        have hb := scoreSingle_pruned cfg st i (RefTree.points l ++ RefTree.points r) b
          hmc hsame hrel habs hker0 hanti hvb hlen hnn hp
        refine ⟨hfr.2.2.2.2, by rw [hfr.2.2.2.1]; omega, hb.1, Or.inl hfr.1, ?_⟩
        intro E hE
        have hmain := hb.2 E hE
        rw [hfr.2.2.2.1]
        push_cast
        have hcoef : ((st.scores : ℚ) + 1 - (st.scores : ℚ)) * (cfg.relError * E + cfg.absError) / 2 =
            (cfg.relError * E + cfg.absError) / 2 := by ring
        rw [hcoef]
        exact hmain
      · have hiss : (scoreSingle cfg st i
            { points := RefTree.points l ++ RefTree.points r, bound := b }).2.isSome = true := by
          rcases ho : (scoreSingle cfg st i
            { points := RefTree.points l ++ RefTree.points r, bound := b }).2 with _ | v
          · exact absurd ho hp
          · rfl
        rw [if_pos hiss]
        have hdens := scoreSingle_not_pruned cfg st i
          ⟨RefTree.points l ++ RefTree.points r, b⟩ hmc hrel habs hlen hnn hiss
        set st1 := (scoreSingle cfg st i
          { points := RefTree.points l ++ RefTree.points r, bound := b }).1 with hst1
        have hgd1 : st1.densities.getD i 0 = st.densities.getD i 0 := by rw [hdens]
        have hlen1 : i < st1.densities.length := by rw [hdens]; exact hlen
        have hnn1 : 0 ≤ st1.densities.getD i 0 := by rw [hgd1]; exact hnn
        have hfresh1 : ∀ j ∈ RefTree.points l, st1.lastPair ≠ some (i, j) := by
          intro j hj
          rw [hfr.1]
          exact hfresh j (List.mem_append_left _ hj)
        have h1 := ihl st1 hvl hndl hfresh1 hlen1 hnn1
        set st2 := singleTreeTraverse cfg i st1 l with hst2
        have hfresh2 : ∀ j ∈ RefTree.points r, st2.lastPair ≠ some (i, j) := by
          intro j hj
          rcases h1.2.2.2.1 with he | ⟨j2, hj2, he⟩
          · rw [he, hfr.1]
            exact hfresh j (List.mem_append_right _ hj)
          · rw [he]
            intro hc
            have hj2j : j2 = j := by
              have := Option.some.inj hc
              exact ((Prod.mk.injEq _ _ _ _).mp this).2
            exact hdisj hj2 (hj2j ▸ hj)
        have hlen2 : i < st2.densities.length := by rw [h1.1]; exact hlen1
        have hnn2 : 0 ≤ st2.densities.getD i 0 := le_trans hnn1 h1.2.2.1
        have h2 := ihr st2 hvr hndr hfresh2 hlen2 hnn2
        refine ⟨?_, ?_, ?_, ?_, ?_⟩
        · rw [h2.1, h1.1, hdens]
        · have hs1 : st1.scores = st.scores + 1 := hfr.2.2.2.1
          have := h1.2.1
          have := h2.2.1
          omega
        · calc st.densities.getD i 0 = st1.densities.getD i 0 := hgd1.symm
            _ ≤ st2.densities.getD i 0 := h1.2.2.1
            _ ≤ _ := h2.2.2.1
        · rcases h2.2.2.2.1 with he2 | ⟨j, hj, he2⟩
          · rcases h1.2.2.2.1 with he1 | ⟨j, hj, he1⟩
            · exact Or.inl (by rw [he2, he1, hfr.1])
            · exact Or.inr ⟨j, List.mem_append_left _ hj, by rw [he2]; exact he1⟩
          · exact Or.inr ⟨j, List.mem_append_right _ hj, he2⟩
        · intro E hE
          have hEl : st2.densities.getD i 0 ≤ E := le_trans h2.2.2.1 hE
          have eL := h1.2.2.2.2 E hEl
          have eR := h2.2.2.2.2 E hE
          have hE0 : 0 ≤ E := le_trans (le_trans hnn2 h2.2.2.1) hE
          have hra : 0 ≤ cfg.relError * E + cfg.absError := by
            have := mul_nonneg hrel hE0
            linarith
          rw [exactDensity_append]
          have hs1q : (st1.scores : ℚ) = (st.scores : ℚ) + 1 := by
            rw [hfr.2.2.2.1]
            push_cast
            ring
          have hsplit :
              (((singleTreeTraverse cfg i st2 r).scores : ℚ) - (st.scores : ℚ)) *
                (cfg.relError * E + cfg.absError) / 2 =
              (((singleTreeTraverse cfg i st2 r).scores : ℚ) - (st2.scores : ℚ)) *
                  (cfg.relError * E + cfg.absError) / 2 +
                ((st2.scores : ℚ) - (st1.scores : ℚ)) * (cfg.relError * E + cfg.absError) / 2 +
                (cfg.relError * E + cfg.absError) / 2 := by
            rw [hs1q]
            ring
          rw [hsplit]
          have hzz : (singleTreeTraverse cfg i st2 r).densities.getD i 0 -
              st.densities.getD i 0 -
              (exactDensity cfg i (RefTree.points l) + exactDensity cfg i (RefTree.points r)) =
              ((singleTreeTraverse cfg i st2 r).densities.getD i 0 -
                st2.densities.getD i 0 - exactDensity cfg i (RefTree.points r)) +
              (st2.densities.getD i 0 - st1.densities.getD i 0 -
                exactDensity cfg i (RefTree.points l)) := by
            rw [hgd1]
            ring
          rw [hzz]
          have htri := abs_add
            ((singleTreeTraverse cfg i st2 r).densities.getD i 0 -
              st2.densities.getD i 0 - exactDensity cfg i (RefTree.points r))
            (st2.densities.getD i 0 - st1.densities.getD i 0 -
              exactDensity cfg i (RefTree.points l))
          linarith [htri, eL, eR]


end KDE

namespace KDE

/-! ### Claims C1 and C9: the completed traversal -/

/-- Claim C1 (amended): after a complete single-tree traversal with Monte
Carlo disabled and distinct query/reference sets, started from a freshly
constructed rules object whose accumulator slot for the query is zero, the
accumulated density satisfies
`|accumulator[i] - exactDensity(i)| ≤ S * (relError * accumulator[i] + absError) / 2`,
where `S` is the number of Score evaluations the traversal performed
(each Score evaluation contributes at most half its passed tolerance of
error).  The claim's global bound
`relError * exactDensity(i) + absError` fails once three or more pruned
evaluations each consume their full tolerance: see the counterexample. -/
theorem claim_C1_error_bound {α β : Type} [Inhabited α] (cfg : KDEConfig α β)
    (i : ℕ) (t : RefTree β) (densities0 : List ℚ)
    (hmc : cfg.monteCarlo = false) (hsame : cfg.sameSet = false)
    (hrel : 0 ≤ cfg.relError) (habs : 0 ≤ cfg.absError)
    (hker0 : ∀ d, 0 ≤ cfg.kernel d) (hanti : Antitone cfg.kernel)
    (hvalid : RefTree.validFor cfg (cfg.querySet.getD i default) t)
    (hnodup : (RefTree.points t).Nodup)
    (hlen : i < densities0.length)
    (hzero : densities0.getD i 0 = 0) :
    |(singleTreeTraverse cfg i (KDERules.init densities0) t).densities.getD i 0 -
        exactDensity cfg i (RefTree.points t)| ≤
      ((singleTreeTraverse cfg i (KDERules.init densities0) t).scores : ℚ) *
        (cfg.relError *
            (singleTreeTraverse cfg i (KDERules.init densities0) t).densities.getD i 0 +
          cfg.absError) / 2 := by
  have h := traverse_spec cfg i hmc hsame hrel habs hker0 hanti t (KDERules.init densities0)
    hvalid hnodup (by intro j hj; simp [KDERules.init]) (by simpa [KDERules.init] using hlen)
    (le_of_eq hzero.symm)
  have hmain := h.2.2.2.2 _ le_rfl
  simp only [KDERules.init] at hmain
  rw [hzero] at hmain
  simpa using hmain

/-- Witness for the amended C1 at the constant-kernel configuration. -/
theorem claim_C1_error_bound_witness :
    |(singleTreeTraverse trivialCfg 0 (KDERules.init [0])
          (RefTree.leaf 1 [0])).densities.getD 0 0 -
        exactDensity trivialCfg 0 (RefTree.points (RefTree.leaf 1 [0]))| ≤
      ((singleTreeTraverse trivialCfg 0 (KDERules.init [0])
            (RefTree.leaf 1 [0])).scores : ℚ) *
        (trivialCfg.relError *
            (singleTreeTraverse trivialCfg 0 (KDERules.init [0])
              (RefTree.leaf 1 [0])).densities.getD 0 0 +
          trivialCfg.absError) / 2 :=
  claim_C1_error_bound trivialCfg 0 (RefTree.leaf 1 [0]) [0] rfl rfl le_rfl le_rfl
    (fun _ => by norm_num [trivialCfg]) antitone_const
    (by norm_num [RefTree.validFor, boundValidPB, trivialCfg]) (by decide)
    (by norm_num) rfl

/-- Counterexample to C1 as stated: over three pruned leaves, each passing
the exact-pruning test with a bound gap of exactly the absolute tolerance,
the accumulated error is `3 * absError / 2 > absError` (relative tolerance
zero), so the completed traversal violates
`|accumulator[0] - exactDensity(0)| ≤ relError * exactDensity(0) + absError`. -/
theorem claim_C1_counterexample :
    ¬ (|(singleTreeTraverse c1cexCfg 0 (KDERules.init [0]) c1cexTree).densities.getD 0 0 -
          exactDensity c1cexCfg 0 (RefTree.points c1cexTree)| ≤
        c1cexCfg.relError * exactDensity c1cexCfg 0 (RefTree.points c1cexTree) +
          c1cexCfg.absError) := by
  norm_num [singleTreeTraverse, scoreSingle, baseCaseLoop, BaseCase, c1cexCfg, c1cexTree,
    KDERules.init, exactPruneTest, kernelBoundsPB, exactDensity, EvaluateKernel,
    RefTree.points, RefTree.asNode]

/-- Claim C9 (amended): with both tolerances zero, Monte Carlo disabled and
distinct query/reference sets, the completed single-tree traversal's
accumulator equals the exact brute-force kernel sum; and Score returns the
pruned sentinel only for reference nodes that are empty or whose scaled
kernel-bound gap is not positive (for valid bounds and an antitone kernel
the bounds then coincide, making the pruned contribution itself exact).
The claim's stronger clause — that only literally empty nodes prune — fails
on a nonempty node with a zero-width bound: see the counterexample. -/
theorem claim_C9_zero_tolerance {α β : Type} [Inhabited α] (cfg : KDEConfig α β)
    (i : ℕ) (t : RefTree β) (densities0 : List ℚ)
    (hrelz : cfg.relError = 0) (habsz : cfg.absError = 0)
    (hmc : cfg.monteCarlo = false) (hsame : cfg.sameSet = false)
    (hker0 : ∀ d, 0 ≤ cfg.kernel d) (hanti : Antitone cfg.kernel)
    (hvalid : RefTree.validFor cfg (cfg.querySet.getD i default) t)
    (hnodup : (RefTree.points t).Nodup)
    (hlen : i < densities0.length)
    (hzero : densities0.getD i 0 = 0) :
    (singleTreeTraverse cfg i (KDERules.init densities0) t).densities.getD i 0 =
      exactDensity cfg i (RefTree.points t) ∧
    ∀ (st : KDEState) (refNode : KDENode β),
      (scoreSingle cfg st i refNode).2 = none →
      refNode.points = [] ∨
      (refNode.points.length : ℚ) *
          (kernelBoundsPB cfg (cfg.querySet.getD i default) refNode.bound).1 -
        (refNode.points.length : ℚ) *
          (kernelBoundsPB cfg (cfg.querySet.getD i default) refNode.bound).2 ≤ 0 := by
  constructor
  · have h := traverse_spec cfg i hmc hsame (le_of_eq hrelz.symm) (le_of_eq habsz.symm)
      hker0 hanti t (KDERules.init densities0)
      hvalid hnodup (by intro j hj; simp [KDERules.init]) (by simpa [KDERules.init] using hlen)
      (le_of_eq hzero.symm)
    have hmain := h.2.2.2.2 _ le_rfl
    simp only [KDERules.init] at hmain
    rw [hzero, hrelz, habsz] at hmain
    rw [sub_zero] at hmain
    have hup : |(singleTreeTraverse cfg i (KDERules.init densities0) t).densities.getD i 0 -
        exactDensity cfg i (RefTree.points t)| ≤ 0 := by
      calc |(singleTreeTraverse cfg i (KDERules.init densities0) t).densities.getD i 0 -
            exactDensity cfg i (RefTree.points t)| ≤ _ := hmain
        _ = 0 := by push_cast; ring
    have hlow := abs_nonneg
      ((singleTreeTraverse cfg i (KDERules.init densities0) t).densities.getD i 0 -
        exactDensity cfg i (RefTree.points t))
    have heq0 := abs_eq_zero.mp (le_antisymm hup hlow)
    linarith [heq0]
  · intro st refNode hprune
    by_cases hemp : refNode.points.isEmpty = true
    · exact Or.inl (List.isEmpty_iff.mp hemp)
    · right
      by_cases htest : exactPruneTest cfg
          ((refNode.points.length : ℚ) *
              (kernelBoundsPB cfg (cfg.querySet.getD i default) refNode.bound).1 -
            (refNode.points.length : ℚ) *
              (kernelBoundsPB cfg (cfg.querySet.getD i default) refNode.bound).2)
          (st.densities.getD i 0)
      · rw [exactPruneTest, hrelz, habsz] at htest
        simpa using htest
      · refine absurd hprune ?_
        simp only [scoreSingle]
        rw [if_neg hemp, if_neg htest, hmc]
        simp

/-- Witness for the amended C9 at the constant-kernel configuration: the
traversal reproduces the brute-force sum exactly. -/
theorem claim_C9_zero_tolerance_witness :
    (singleTreeTraverse trivialCfg 0 (KDERules.init [0])
        (RefTree.leaf 1 [0])).densities.getD 0 0 =
      exactDensity trivialCfg 0 (RefTree.points (RefTree.leaf 1 [0])) :=
  (claim_C9_zero_tolerance trivialCfg 0 (RefTree.leaf 1 [0]) [0] rfl rfl rfl rfl
    (fun _ => by norm_num [trivialCfg]) antitone_const
    (by norm_num [RefTree.validFor, boundValidPB, trivialCfg]) (by decide)
    (by norm_num) rfl).1

/-- Counterexample to C9's pruning clause: with both tolerances zero, a
nonempty reference node with a zero-width bounding volume still prunes. -/
theorem claim_C9_counterexample :
    (scoreSingle c9cexCfg (KDERules.init [0]) 0 c9cexNode).2 = none ∧
    c9cexNode.points ≠ [] := by
  constructor
  · norm_num [scoreSingle, c9cexCfg, c9cexNode, KDERules.init, exactPruneTest, kernelBoundsPB]
  · norm_num [c9cexNode]

end KDE
